import Mathlib

/-!
Shallow embedding of the turn-based simulation core of the `gruid-rltuto`
roguelike (Go).  Data types and operations are translated from the Go
source files (`components.go`, `entity.go`, `game.go`, `items.go`, `ai.go`,
`map.go`).  Go machine integers are modelled as `Int` (no overflow is
relevant at these magnitudes), Go maps as functions into `Option`, map
iteration as iteration over an explicit id list, and the mutable `*game`
state as explicit state passing.  Library calls from the gruid framework
(shadow-casting FOV, A-star pathfinding, the random number generator and the
cellular-automata cave generator) are not code of this program; they are
modelled as oracle fields of the state or as explicit parameters, so that
every operation of the program itself is an executable Lean function.
-/

namespace RLTuto

/-- `gruid.Point`: a grid coordinate. -/
structure Point where
  x : Int
  y : Int
deriving DecidableEq, Repr

/-- `paths.DistanceManhattan` from the gruid library. -/
def distanceManhattan (p q : Point) : Int :=
  |p.x - q.x| + |p.y - q.y|

/-- `fighter` component (`components.go`): HP, max HP, attack and defense. -/
structure Fighter where
  HP : Int
  MaxHP : Int
  Power : Int
  Defense : Int
deriving DecidableEq, Repr

/-- `fighter.Heal` (`components.go`): adds `n` to HP, clamping at `MaxHP`;
returns the updated fighter together with the final amount of healing. -/
def Fighter.Heal (fi : Fighter) (n : Int) : Fighter × Int :=
  let hp := fi.HP + n
  if hp > fi.MaxHP then ({ fi with HP := fi.MaxHP }, n - (hp - fi.MaxHP))
  else ({ fi with HP := hp }, n)

/-- `status` (`components.go`): kinds of timed statuses. -/
inductive Status where
  | confused
deriving DecidableEq, Repr

/-- `Statuses` (`components.go`): map from status kind to remaining turns.
A key absent from the Go map is `none`. -/
abbrev StatusMap := Status → Option Int

/-- `Statuses.NextTurn` (`components.go`): per key, a counter at `0` is
deleted and a remaining counter is decremented.  The Go loop visits each
key of the map exactly once, so the pointwise model is exact. -/
def StatusMap.nextTurn (sts : StatusMap) : StatusMap :=
  fun st =>
    match sts st with
    | none => none
    | some turns => if turns = 0 then none else some (turns - 1)

/-- `Statuses.Put` (`components.go`): overwrite the counter of a status. -/
def StatusMap.put (sts : StatusMap) (st : Status) (turns : Int) : StatusMap :=
  fun st' => if st' = st then some turns else sts st'

/-- Presence query used by `ECS.Status` (`entity.go`). -/
def StatusMap.has (sts : StatusMap) (st : Status) : Bool :=
  (sts st).isSome

/-- Entity kinds (`entity.go`, `items.go`): the Go `Entity` interface holds
`*Player`, `*Monster` or one of the consumable item structs, each carrying
its parameters. -/
inductive Entity where
  | player
  | monster
  | healingPotion (amount : Int)
  | lightningScroll (reach damage : Int)
  | confusionScroll (turns : Int)
  | fireballScroll (damage radius : Int)
deriving DecidableEq, Repr

/-- Whether an entity satisfies the Go `Consumable` interface. -/
def Entity.isConsumable : Entity → Bool
  | .player => false
  | .monster => false
  | _ => true

/-- `maxLOS` (`entity.go`): maximum line-of-sight distance. -/
def maxLOS : Int := 10

/-- The combined `game` + `ECS` + `Map` state (`game.go`, `entity.go`,
`map.go`).  Go maps become functions into `Option`; `ids` records the ids
present in the component tables together with their iteration order (Go map
iteration order is unspecified, so theorems quantify over it).  The fields
`fovOracle`, `astar`, `randomFloorP` and `rand2` model the gruid library
services used by the code: the shadow-casting vision map computed from a
player position, the A-star path between two points, the next
rejection-sampled random floor tile, and the stream of `rand.Intn(2)`
draws (each draw lies in `{0, 1}`, which the model enforces with `% 2`). -/
structure Game where
  ids : List Int
  entities : Int → Option Entity
  positions : Int → Option Point
  playerID : Int
  fighter : Int → Option Fighter
  inventory : Int → List Int
  statuses : Int → StatusMap
  aiPath : Int → List Point
  width : Int
  height : Int
  walkableMap : Point → Bool
  explored : Point → Bool
  visibleList : List Point
  fovOracle : Point → List Point
  astar : Point → Point → List Point
  randomFloorP : Point
  rand2 : List Nat

namespace Game

/-- `ECS.PP` (`entity.go`): the player's position.  A missing key of a Go
map yields the zero value `Point{0, 0}`. -/
def pp (g : Game) : Point :=
  (g.positions g.playerID).getD ⟨0, 0⟩

/-- Position lookup with the Go zero value for a missing key. -/
def posOf (g : Game) (i : Int) : Point :=
  (g.positions i).getD ⟨0, 0⟩

/-- `ECS.Alive` (`entity.go`): a fighter component is present and HP > 0. -/
def alive (g : Game) (i : Int) : Bool :=
  match g.fighter i with
  | some fi => fi.HP > 0
  | none => false

/-- `ECS.Dead` (`entity.go`): a fighter component is present and HP ≤ 0. -/
def dead (g : Game) (i : Int) : Bool :=
  match g.fighter i with
  | some fi => fi.HP ≤ 0
  | none => false

/-- `ECS.PlayerDied` (`entity.go`). -/
def playerDied (g : Game) : Bool :=
  g.dead g.playerID

/-- `ECS.MoveEntity` (`entity.go`). -/
def moveEntity (g : Game) (i : Int) (p : Point) : Game :=
  { g with positions := Function.update g.positions i (some p) }

/-- Loop body of `ECS.MonsterAt` over the iteration order of the
`Positions` table: the first id whose position is `p`, which is alive and
whose entity is a `*Monster` is returned; otherwise `-1`. -/
def monsterAtList (g : Game) (p : Point) : List Int → Int
  | [] => -1
  | i :: rest =>
    if g.positions i = some p ∧ g.alive i ∧ g.entities i = some .monster then i
    else monsterAtList g p rest

/-- `ECS.MonsterAt` (`entity.go`). -/
def monsterAt (g : Game) (p : Point) : Int :=
  g.monsterAtList p g.ids

/-- `ECS.NoBlockingEntityAt` (`entity.go`): no player nor living monster. -/
def noBlockingEntityAt (g : Game) (p : Point) : Bool :=
  g.pp ≠ p ∧ ¬ g.alive (g.monsterAt p)

/-- `ECS.PutStatus` (`entity.go`): `Statuses.Put` on the entity's status
map (creating an empty map first when absent, which the collapsed
function model makes automatic). -/
def putStatus (g : Game) (i : Int) (st : Status) (turns : Int) : Game :=
  { g with statuses := Function.update g.statuses i ((g.statuses i).put st turns) }

/-- `ECS.Status` (`entity.go`): `_, ok := es.Statuses[i][st]`; a `nil`
inner map yields `ok = false`, matching the collapsed model. -/
def status (g : Game) (i : Int) (st : Status) : Bool :=
  (g.statuses i).has st

/-- `ECS.StatusesNextTurn` (`entity.go`): apply `Statuses.NextTurn` to
every entity's status map.  Entities with no map entry hold the empty map
in the model, on which the pass is the identity. -/
def statusesNextTurn (g : Game) : Game :=
  { g with statuses := fun i => (g.statuses i).nextTurn }

/-- `Map.Walkable` (`map.go`): the tile at `p` is floor.  `rl.Grid.At`
yields the zero cell (`Wall`) out of range, which `walkableMap` absorbs. -/
def walkable (g : Game) (p : Point) : Bool :=
  g.walkableMap p

/-- `p.In(g.Map.Grid.Range())`: the grid range of an `rl.NewGrid(w, h)`. -/
def inGrid (g : Game) (p : Point) : Bool :=
  0 ≤ p.x ∧ p.x < g.width ∧ 0 ≤ p.y ∧ p.y < g.height

/-- `game.InFOV` (`game.go`): visible by the player's FOV object and
within `maxLOS` Manhattan distance of the player. -/
def inFOV (g : Game) (p : Point) : Bool :=
  p ∈ g.visibleList ∧ distanceManhattan g.pp p ≤ maxLOS

/-- `game.UpdateFOV` (`game.go`): recompute the player's vision map via
the shadow-casting oracle and mark every visible cell within `maxLOS`
Manhattan distance as explored. -/
def updateFOV (g : Game) : Game :=
  let vis := g.fovOracle g.pp
  { g with
    visibleList := vis,
    explored := fun p =>
      g.explored p || (decide (p ∈ vis) && decide (distanceManhattan p g.pp ≤ maxLOS)) }

/-- `game.BumpAttack` (`game.go`): damage is attacker power minus defender
defense, subtracted from the defender's HP when positive.  The source
assumes both fighter components are present (a `nil` pointer would crash);
the model leaves the state unchanged otherwise. -/
def bumpAttack (g : Game) (i j : Int) : Game :=
  match g.fighter i, g.fighter j with
  | some fi, some fj =>
    let damage := fi.Power - fj.Defense
    if damage > 0 then
      { g with fighter := Function.update g.fighter j (some { fj with HP := fj.HP - damage }) }
    else g
  | _, _ => g

end Game

/-- `itemAction` (`items.go`): acting entity and optional target point. -/
structure ItemAction where
  actor : Int
  target : Option Point
deriving DecidableEq, Repr

/-- Outcome of an operation that mutates the game and may return an
error: the final state together with the optional error message.  Go
mutates through pointers, so mutations made before an error return are
kept. -/
abbrev Outcome := Game × Option String

namespace Game

/-- `HealingPotion.Activate` (`items.go`): heal the actor's fighter,
failing when it has no fighter component or when no healing resulted.
The `Heal` call happens before the "already full" check, matching the
source order (the write is a no-op in that case since HP was already at
`MaxHP`). -/
def healingPotionActivate (g : Game) (amount : Int) (a : ItemAction) : Outcome :=
  match g.fighter a.actor with
  | none => (g, some "cannot use healing potions.")
  | some fi =>
    let res := fi.Heal amount
    let g' := { g with fighter := Function.update g.fighter a.actor (some res.1) }
    if res.2 ≤ 0 then (g', some "Your health is already full.")
    else (g', none)

/-- Scan loop of `LightningScroll.Activate` (`items.go`) over the
iteration order of the `Fighter` table, carrying `(target, minDist)`. -/
def lightningScan (g : Game) (actor : Int) : List Int → Int × Int → Int × Int
  | [], res => res
  | i :: rest, (t, md) =>
    if (g.fighter i).isSome then
      let p := g.posOf i
      if i = actor ∨ g.dead i ∨ ¬ g.inFOV p then g.lightningScan actor rest (t, md)
      else
        let dist := distanceManhattan p (g.posOf actor)
        if dist < md then g.lightningScan actor rest (i, dist)
        else g.lightningScan actor rest (t, md)
    else g.lightningScan actor rest (t, md)

/-- `LightningScroll.Activate` (`items.go`): strike the closest non-dead
visible fighter other than the actor within range, or fail. -/
def lightningActivate (g : Game) (reach damage : Int) (a : ItemAction) : Outcome :=
  let res := g.lightningScan a.actor g.ids (-1, reach + 1)
  if res.1 < 0 then (g, some "No enemy within range.")
  else
    match g.fighter res.1 with
    | some fj => ({ g with fighter := Function.update g.fighter res.1 (some { fj with HP := fj.HP - damage }) }, none)
    | none => (g, none)

/-- `ConfusionScroll.Activate` (`items.go`): requires a visible target
cell holding a living monster other than the player; applies the confused
status for the scroll's number of turns. -/
def confusionActivate (g : Game) (turns : Int) (a : ItemAction) : Outcome :=
  match a.target with
  | none => (g, some "You have to chose a target.")
  | some p =>
    if ¬ g.inFOV p then (g, some "You cannot target what you cannot see.")
    else if p = g.pp then (g, some "You cannot confuse yourself.")
    else
      let i := g.monsterAt p
      if i ≤ 0 ∨ ¬ g.alive i then (g, some "You have to target a monster.")
      else (g.putStatus i .confused turns, none)

/-- Damage loop of `FireballScroll.Activate` (`items.go`) over the
iteration order of the `Fighter` table: every non-dead fighter within the
radius of the target point loses `damage` HP; the hit count is returned. -/
def fireballLoop (damage radius : Int) (p : Point) : Game → List Int → Game × Nat
  | g, [] => (g, 0)
  | g, i :: rest =>
    match g.fighter i with
    | none => fireballLoop damage radius p g rest
    | some fi =>
      if g.dead i then fireballLoop damage radius p g rest
      else
        let q := g.posOf i
        if distanceManhattan q p > radius then fireballLoop damage radius p g rest
        else
          let g' := { g with fighter := Function.update g.fighter i (some { fi with HP := fi.HP - damage }) }
          let res := fireballLoop damage radius p g' rest
          (res.1, res.2 + 1)

/-- `FireballScroll.Activate` (`items.go`): requires a visible target
point; damages every non-dead fighter within the Manhattan radius (the
actor is not excluded); fails when nothing was hit. -/
def fireballActivate (g : Game) (damage radius : Int) (a : ItemAction) : Outcome :=
  match a.target with
  | none => (g, some "You have to chose a target.")
  | some p =>
    if ¬ g.inFOV p then (g, some "You cannot target what you cannot see.")
    else
      let res := fireballLoop damage radius p g g.ids
      if res.2 ≤ 0 then (res.1, some "There are no targets in the radius.")
      else (res.1, none)

/-- `Consumable.Activate` dispatch (`items.go`): the dynamic dispatch on
the concrete consumable type. -/
def activateEntity (g : Game) (e : Entity) (a : ItemAction) : Outcome :=
  match e with
  | .healingPotion amount => g.healingPotionActivate amount a
  | .lightningScroll reach damage => g.lightningActivate reach damage a
  | .confusionScroll turns => g.confusionActivate turns a
  | .fireballScroll damage radius => g.fireballActivate damage radius a
  | _ => (g, none)

/-- The swap-removal of inventory slot `n` used by `InventoryActivate`
and `InventoryRemove` (`game.go`): the last slot is moved onto slot `n`
and the list is truncated by one. -/
def removeSlot (l : List Int) (n : Nat) : List Int :=
  (l.set n (l.getLastD 0)).dropLast

/-- `game.InventoryActivateWithTarget` (`game.go`): activate the item in
slot `n` of the actor's inventory with an optional target.  On an
activation error the error is returned and no slot is removed; otherwise
(including for inventory entries that are not consumables) slot `n` is
swap-removed.  Slot indices are nonnegative in Go (`n` is a menu index);
a missing `Inventory` component is the empty list. -/
def inventoryActivateWithTarget (g : Game) (actor : Int) (n : Nat) (targ : Option Point) : Outcome :=
  let inv := g.inventory actor
  if inv.length ≤ n then (g, some "Empty slot.")
  else
    let i := inv.getD n 0
    let res :=
      match g.entities i with
      | some e => if e.isConsumable then g.activateEntity e ⟨actor, targ⟩ else (g, none)
      | none => (g, none)
    match res.2 with
    | some err => (res.1, some err)
    | none =>
      ({ res.1 with
         inventory := Function.update res.1.inventory actor
           (removeSlot (res.1.inventory actor) n) }, none)

/-- `game.InventoryActivate` (`game.go`). -/
def inventoryActivate (g : Game) (actor : Int) (n : Nat) : Outcome :=
  g.inventoryActivateWithTarget actor n none

/-- The cell a confused monster at `p` attempts to step to, given the two
`rand.Intn(2)` draws: `p.X += -1 + 2*rand.Intn(2)` and
`p.Y += -1 + 2*rand.Intn(2)` (`ai.go`). -/
def confusedTarget (p : Point) (r1 r2 : Nat) : Point :=
  ⟨p.x + (-1 + 2 * ((r1 % 2 : Nat) : Int)), p.y + (-1 + 2 * ((r2 % 2 : Nat) : Int))⟩

/-- `game.HandleConfusedMonster` (`ai.go`): bump toward the drawn cell —
do nothing off-grid, attack the player on its cell, otherwise move only
onto a walkable, unblocked cell.  The two `rand.Intn(2)` draws are taken
from the `rand2` stream; `g'` is the state with the stream advanced,
which differs from `g` in no field the queries read. -/
def handleConfusedMonster (g : Game) (i : Int) : Game :=
  let r1 := g.rand2.headD 0
  let r2 := (g.rand2.drop 1).headD 0
  let p := confusedTarget (g.posOf i) r1 r2
  let g' := { g with rand2 := g.rand2.drop 2 }
  if ¬ g.inGrid p then g'
  else if p = g.pp then g'.bumpAttack i g.playerID
  else if g.walkable p ∧ g.noBlockingEntityAt p then g'.moveEntity i p
  else g'

/-- `game.AIMove` (`ai.go`): drop a leading path step equal to the
current position, then advance one step only when the next step holds no
blocking entity. -/
def aiMove (g : Game) (i : Int) : Game :=
  let g1 :=
    match g.aiPath i with
    | p0 :: rest =>
      if p0 = g.posOf i then { g with aiPath := Function.update g.aiPath i rest } else g
    | [] => g
  match g1.aiPath i with
  | p0 :: rest =>
    if g1.noBlockingEntityAt p0 then
      { g1.moveEntity i p0 with aiPath := Function.update g1.aiPath i rest }
    else g1
  | [] => g1

/-- `game.HandleMonsterTurn` (`ai.go`, with the confusion branch of the
part-9 revision): skip dead monsters; dispatch confused monsters to
`HandleConfusedMonster`; attack the player when adjacent; otherwise path
toward a random floor tile (when out of the player's FOV, computing a new
path only when the cached one is empty) or recompute a path to the player
(when in FOV), then advance one step. -/
def handleMonsterTurn (g : Game) (i : Int) : Game :=
  if ¬ g.alive i then g
  else if g.status i .confused then g.handleConfusedMonster i
  else
    let p := g.posOf i
    if distanceManhattan p g.pp = 1 then g.bumpAttack i g.playerID
    else if ¬ g.inFOV p then
      let g1 :=
        if (g.aiPath i).length < 1 then
          { g with aiPath := Function.update g.aiPath i (g.astar p g.randomFloorP) }
        else g
      g1.aiMove i
    else
      let g1 := { g with aiPath := Function.update g.aiPath i (g.astar p g.pp) }
      g1.aiMove i

/-- One iteration body of the `EndTurn` entity loop: the type switch runs
`HandleMonsterTurn` on `*Monster` entities only. -/
def entityStep (g : Game) (i : Int) : Game :=
  match g.entities i with
  | some .monster => g.handleMonsterTurn i
  | _ => g

/-- The `EndTurn` loop over the iteration order of the `Entities` table
followed by the status pass (`game.go`): at the start of each iteration,
return at once — skipping the status pass — when the player died;
after the final iteration run `StatusesNextTurn`. -/
def endTurnFrom : Game → List Int → Game
  | g, [] => g.statusesNextTurn
  | g, i :: rest => if g.playerDied then g else endTurnFrom (g.entityStep i) rest

/-- The ids present in the `Entities` table, in iteration order. -/
def entityIds (g : Game) : List Int :=
  g.ids.filter (fun i => (g.entities i).isSome)

/-- `game.EndTurn` (`game.go`): update the FOV, then run every entity's
turn, then decrement statuses (unless the loop returned early on player
death). -/
def endTurn (g : Game) : Game :=
  let g1 := g.updateFOV
  endTurnFrom g1 g1.entityIds

end Game

/-! ## Map generation (`map.go`, `Map.Generate`)

The cellular-automata smoothing (`rl.MapGen.CellularAutomataCave`) is a
gruid library call driven by the random source; it is modelled by an
arbitrary input grid `cave`.  The connectivity pass (`paths.PathRange.CCMap`
followed by `rl.MapGen.KeepCC`) computes the 4-connected component of the
sampled floor cell `freep` and converts every floor cell outside it into
wall; the component computation is modelled by a saturating breadth-first
expansion with fuel `w * h` (the number of grid cells). -/

/-- The 4-directional (cardinal) neighbors of a point, as used by the
`path.Neighbors` method of `map.go`. -/
def neighbors4 (p : Point) : List Point :=
  [⟨p.x + 1, p.y⟩, ⟨p.x - 1, p.y⟩, ⟨p.x, p.y + 1⟩, ⟨p.x, p.y - 1⟩]

/-- One expansion step of the connected-component computation: add every
walkable cardinal neighbor of a member that is not yet a member. -/
def ccStep (walk : Point → Bool) (s : List Point) : List Point :=
  s ++ ((s.flatMap neighbors4).filter (fun q => walk q && decide (q ∉ s)))

/-- The connected component of `src` in the walkability predicate `walk`,
computed by `fuel` expansion steps (model of `paths.PathRange.CCMap`). -/
def ccList (walk : Point → Bool) (src : Point) (fuel : Nat) : List Point :=
  (ccStep walk)^[fuel] [src]

/-- `Map.Generate` (`map.go`) after the cellular-automata smoothing: keep
the terrain of the cells in the connected component of the sampled floor
cell `freep` and turn every other cell into wall (`rl.MapGen.KeepCC`).
The function makes exactly one pass: it performs no minimum-size check,
no regeneration and returns no error. -/
def mapGenerate (cave : Point → Bool) (w h : Nat) (freep : Point) : Point → Bool :=
  fun p => cave p && decide (p ∈ ccList cave freep (w * h))

/-- The points of a `w × h` grid. -/
def rangePoints (w h : Nat) : List Point :=
  (List.range w).flatMap (fun x => (List.range h).map (fun y => ⟨(x : Int), (y : Int)⟩))

/-- The number of floor cells of a grid. -/
def floorArea (floor : Point → Bool) (w h : Nat) : Nat :=
  ((rangePoints w h).filter floor).length

/-- 4-directional reachability from `src` through cells satisfying
`good` (the destination cells of the path must satisfy `good`; the source
itself need not). -/
inductive ReachVia (good : Point → Bool) (src : Point) : Point → Prop where
  | refl : ReachVia good src src
  | step {q r : Point} : ReachVia good src q → r ∈ neighbors4 q → good r = true →
      ReachVia good src r

/-! ## Concrete states used to evaluate the model

A small session state in the shape produced by `NewGame` (`game.go`):
entity `0` is the player (fighter `30/30`, power `5`, defense `2`) and
entity `1` an orc (fighter `10/10`, power `3`, defense `0`), on a fully
walkable `10 × 10` map. -/

/-- Base concrete game state for evaluating the model. -/
def baseGame : Game where
  ids := [0, 1]
  entities := fun i => if i = 0 then some .player else if i = 1 then some .monster else none
  positions := fun i => if i = 0 then some ⟨1, 1⟩ else if i = 1 then some ⟨3, 1⟩ else none
  playerID := 0
  fighter := fun i =>
    if i = 0 then some ⟨30, 30, 5, 2⟩ else if i = 1 then some ⟨10, 10, 3, 0⟩ else none
  inventory := fun _ => []
  statuses := fun _ _ => none
  aiPath := fun _ => []
  width := 10
  height := 10
  walkableMap := fun _ => true
  explored := fun _ => false
  visibleList := rangePoints 10 10
  fovOracle := fun _ => []
  astar := fun _ _ => []
  randomFloorP := ⟨0, 0⟩
  rand2 := []

/-- A cave produced by the smoothing step with two floor cells that are
not 4-connected: `(0,0)` and `(2,2)` in a `3 × 3` grid. -/
def splitCave : Point → Bool :=
  fun p => p = (⟨0, 0⟩ : Point) || p = (⟨2, 2⟩ : Point)

/-- `baseGame` with the orc down to 1 HP. -/
def bumpKillGame : Game :=
  { baseGame with
    fighter := fun i =>
      if i = 0 then some ⟨30, 30, 5, 2⟩ else if i = 1 then some ⟨1, 10, 3, 0⟩ else none }

/-- `baseGame` with the orc at `(5, 5)`, confused for 3 more turns, the
player at the origin, and `1` as the next two `rand.Intn(2)` draws. -/
def confusedGame : Game :=
  { baseGame with
    positions := fun i => if i = 0 then some ⟨0, 0⟩ else if i = 1 then some ⟨5, 5⟩ else none,
    statuses := fun i _ => if i = 1 then some 3 else none,
    rand2 := [1, 1] }

/-- `baseGame` with the player already at 0 HP. -/
def deadPlayerGame : Game :=
  { baseGame with
    fighter := fun i =>
      if i = 0 then some ⟨0, 30, 5, 2⟩ else if i = 1 then some ⟨10, 10, 3, 0⟩ else none }

/-- A state in which the last monster of the entity loop kills the player:
the player (1 HP, defense 0) at the origin, a confused orc (entity 2,
confused for 5 more turns) far away at `(7, 7)`, and an orc (entity 1)
adjacent to the player, iterated in the order `0, 2, 1`. -/
def endTurnKillGame : Game :=
  { baseGame with
    ids := [0, 2, 1],
    entities := fun i =>
      if i = 0 then some .player else if i = 1 ∨ i = 2 then some .monster else none,
    positions := fun i =>
      if i = 0 then some ⟨0, 0⟩ else if i = 1 then some ⟨0, 1⟩
      else if i = 2 then some ⟨7, 7⟩ else none,
    fighter := fun i =>
      if i = 0 then some ⟨1, 30, 5, 0⟩ else if i = 1 then some ⟨10, 10, 3, 0⟩
      else if i = 2 then some ⟨10, 10, 3, 0⟩ else none,
    statuses := fun i _ => if i = 2 then some 5 else none,
    rand2 := [0, 0] }

/-- `baseGame` with the player at 26/30 HP holding one healing potion
(entity 7) in inventory slot 0. -/
def potionGame : Game :=
  { baseGame with
    ids := [0, 1, 7],
    entities := fun i =>
      if i = 0 then some .player else if i = 1 then some .monster
      else if i = 7 then some (.healingPotion 4) else none,
    fighter := fun i =>
      if i = 0 then some ⟨26, 30, 5, 2⟩ else if i = 1 then some ⟨10, 10, 3, 0⟩ else none,
    inventory := fun i => if i = 0 then [7] else [] }

/-- `baseGame` with a second monster: the orc (entity 1) at `(3, 1)` lies
at Manhattan distance 2 from the point `(4, 2)` and the troll (entity 3)
at `(8, 2)` lies at distance 4 from it. -/
def fireGame : Game :=
  { baseGame with
    ids := [0, 1, 3],
    entities := fun i =>
      if i = 0 then some .player else if i = 1 ∨ i = 3 then some .monster else none,
    positions := fun i =>
      if i = 0 then some ⟨1, 1⟩ else if i = 1 then some ⟨3, 1⟩
      else if i = 3 then some ⟨8, 2⟩ else none,
    fighter := fun i =>
      if i = 0 then some ⟨30, 30, 5, 2⟩ else if i = 1 then some ⟨10, 10, 3, 0⟩
      else if i = 3 then some ⟨16, 16, 4, 1⟩ else none }

/-- The scalar recursion applied by a decrement pass to one remaining-turn
counter (`Statuses.NextTurn` acts with it pointwise). -/
def stepVal : Option Int → Option Int
  | none => none
  | some t => if t = 0 then none else some (t - 1)

/-! ## Theorems -/

theorem nextTurn_apply (m : StatusMap) (st : Status) :
    m.nextTurn st = stepVal (m st) := rfl

theorem stepVal_iterate_none (k : Nat) : stepVal^[k] none = none :=
  Function.iterate_fixed rfl k

theorem stepVal_iterate_some (k : Nat) (n : Int) (h : 0 ≤ n) :
    stepVal^[k] (some n) = if (k : Int) ≤ n then some (n - k) else none := by
  induction k generalizing n with
  | zero => simp [h]
  | succ k ih =>
    rw [Function.iterate_succ_apply]
    by_cases h0 : n = 0
    · subst h0
      have hz : stepVal (some 0) = none := by simp [stepVal]
      have hc : ¬ (((k + 1 : Nat) : Int) ≤ 0) := by push_cast; omega
      rw [hz, stepVal_iterate_none, if_neg hc]
    · have h1 : (0:Int) ≤ n - 1 := by omega
      simp only [stepVal, if_neg h0]
      rw [ih _ h1]
      by_cases hk : ((k : Int) + 1) ≤ n
      · rw [if_pos (by omega), if_pos (by push_cast; omega)]
        congr 1
        push_cast
        ring
      · rw [if_neg (by omega), if_neg (by push_cast; omega)]

theorem statusMap_nextTurn_iterate (k : Nat) (m : StatusMap) (st : Status) :
    ((StatusMap.nextTurn)^[k] m) st = stepVal^[k] (m st) := by
  induction k generalizing m with
  | zero => rfl
  | succ k ih =>
    rw [Function.iterate_succ_apply, Function.iterate_succ_apply, ih, nextTurn_apply]

theorem statusesNextTurn_iterate (k : Nat) (g : Game) :
    ((Game.statusesNextTurn)^[k] g).statuses = fun i => (StatusMap.nextTurn)^[k] (g.statuses i) := by
  induction k generalizing g with
  | zero => rfl
  | succ k ih =>
    rw [Function.iterate_succ_apply, ih]
    rfl

/-- C4: after `PutStatus` with duration `n ≥ 0`, the entity's status is
queryable for exactly the states reached by `0, …, n` decrement passes —
each pass decrements the positive counter (`n - k` remains after `k ≤ n`
passes, so the counter that reached `0` still answers true for that
turn), and the pass after the counter hits `0` deletes the entry, after
which the query answers false. -/
theorem status_decrement_grace (g : Game) (i : Int) (st : Status) (n : Int) (hn : 0 ≤ n)
    (k : Nat) :
    (((Game.statusesNextTurn)^[k] (g.putStatus i st n)).status i st = decide ((k : Int) ≤ n)) ∧
    ((k : Int) ≤ n →
      ((Game.statusesNextTurn)^[k] (g.putStatus i st n)).statuses i st = some (n - k)) ∧
    ((n : Int) < k →
      ((Game.statusesNextTurn)^[k] (g.putStatus i st n)).statuses i st = none) := by
  have hval : ((Game.statusesNextTurn)^[k] (g.putStatus i st n)).statuses i st =
      if (k : Int) ≤ n then some (n - k) else none := by
    have hput : (g.putStatus i st n).statuses i st = some n := by
      simp [Game.putStatus, StatusMap.put]
    simp only [statusesNextTurn_iterate, statusMap_nextTurn_iterate, hput,
      stepVal_iterate_some _ _ hn]
  refine ⟨?_, fun hk => by rw [hval, if_pos hk], fun hk => by rw [hval, if_neg (by omega)]⟩
  rw [Game.status, StatusMap.has, hval]
  by_cases hk : (k : Int) ≤ n
  · simp [hk]
  · simp [hk]

/-- Witness for C4 at a concrete input: a status applied for 2 turns is
gone after 3 decrement passes. -/
theorem status_decrement_grace_witness :
    ((Game.statusesNextTurn)^[3] (baseGame.putStatus 1 .confused 2)).status 1 .confused
      = false := by
  simpa using (status_decrement_grace baseGame 1 .confused 2 (by decide) 3).1

theorem update_fighter_mono (g : Game) (t : Int) (ft : Fighter) (dmg : Int) (hd : 0 ≤ dmg)
    (hgt : g.fighter t = some ft) (j : Int) (fj : Fighter) (hfj : g.fighter j = some fj) :
    ∃ fj', Function.update g.fighter t (some { ft with HP := ft.HP - dmg }) j = some fj' ∧
      fj'.HP ≤ fj.HP ∧ fj'.MaxHP = fj.MaxHP := by
  by_cases hjt : j = t
  · subst hjt
    have hfe : ft = fj := by rw [hgt] at hfj; injection hfj
    refine ⟨_, Function.update_same _ _ _, ?_, ?_⟩
    · show ft.HP - dmg ≤ fj.HP
      rw [hfe]
      omega
    · show ft.MaxHP = fj.MaxHP
      rw [hfe]
  · exact ⟨fj, by rw [Function.update_noteq hjt]; exact hfj, le_refl _, rfl⟩

theorem fireballLoop_hp_mono (dmg rad : Int) (p : Point) (hd : 0 ≤ dmg) :
    ∀ (l : List Int) (g : Game) (j : Int) (fj : Fighter), g.fighter j = some fj →
      ∃ fj', ((Game.fireballLoop dmg rad p g l).1).fighter j = some fj' ∧
        fj'.HP ≤ fj.HP ∧ fj'.MaxHP = fj.MaxHP := by
  intro l
  induction l with
  | nil => exact fun g j fj hj => ⟨fj, hj, le_refl _, rfl⟩
  | cons i rest ih =>
    intro g j fj hj
    rw [Game.fireballLoop]
    cases hfi : g.fighter i with
    | none => exact ih g j fj hj
    | some fi =>
      dsimp only
      by_cases hdead : g.dead i = true
      · rw [if_pos hdead]
        exact ih g j fj hj
      · rw [if_neg hdead]
        by_cases hdist : distanceManhattan (g.posOf i) p > rad
        · rw [if_pos hdist]
          exact ih g j fj hj
        · rw [if_neg hdist]
          obtain ⟨fjm, hm1, hm2, hm3⟩ := update_fighter_mono g i fi dmg hd hfi j fj hj
          obtain ⟨fj', h1, h2, h3⟩ :=
            ih { g with fighter := Function.update g.fighter i (some { fi with HP := fi.HP - dmg }) }
              j fjm hm1
          exact ⟨fj', h1, le_trans h2 hm2, h3.trans hm3⟩

/-- C2, amended: each heal or damage operation keeps `HP ≤ MaxHP` —
`Heal` clamps at `MaxHP` (reaching it exactly when the amount overshoots)
and preserves nonnegativity, while the damage operations (bump attack,
lightning strike, fireball) only ever lower HP and never touch `MaxHP`,
so HP may become negative — and an entity with `HP ≤ 0` is never `Alive`. -/
theorem hp_operations_bound
    (f : Fighter) (n : Int) (hn : 0 ≤ n)
    (g : Game) (i j : Int) (fj : Fighter) (hfj : g.fighter j = some fj)
    (reach damage : Int) (hdmg : 0 ≤ damage) (a : ItemAction) :
    ((f.Heal n).1.HP ≤ f.MaxHP ∧ (0 ≤ f.HP → 0 ≤ f.MaxHP → 0 ≤ (f.Heal n).1.HP) ∧
      (f.Heal n).1.MaxHP = f.MaxHP ∧
      (f.MaxHP < f.HP + n → (f.Heal n).1.HP = f.MaxHP)) ∧
    (∃ fj', (g.bumpAttack i j).fighter j = some fj' ∧
      fj'.HP ≤ fj.HP ∧ fj'.MaxHP = fj.MaxHP) ∧
    (∃ fj', ((g.lightningActivate reach damage a).1).fighter j = some fj' ∧
      fj'.HP ≤ fj.HP ∧ fj'.MaxHP = fj.MaxHP) ∧
    (∃ fj', ((g.fireballActivate damage reach a).1).fighter j = some fj' ∧
      fj'.HP ≤ fj.HP ∧ fj'.MaxHP = fj.MaxHP) ∧
    (fj.HP ≤ 0 → g.alive j = false) := by
  refine ⟨?_, ?_, ?_, ?_, ?_⟩
  · rw [Fighter.Heal]
    split
    · next hgt =>
      exact ⟨le_refl _, fun _ hm => hm, rfl, fun _ => rfl⟩
    · next hle =>
      push_neg at hle
      exact ⟨hle, fun hh _ => by show (0:Int) ≤ f.HP + n; omega, rfl,
        fun h => absurd h (by omega)⟩
  · rw [Game.bumpAttack]
    cases hgi : g.fighter i with
    | none => exact ⟨fj, hfj, le_refl _, rfl⟩
    | some fi =>
      rw [hfj]
      dsimp only
      split
      · next hpos =>
        exact update_fighter_mono g j fj (fi.Power - fj.Defense) (by omega) hfj j fj hfj
      · exact ⟨fj, hfj, le_refl _, rfl⟩
  · rw [Game.lightningActivate]
    split
    · exact ⟨fj, hfj, le_refl _, rfl⟩
    · cases hgt : g.fighter (g.lightningScan a.actor g.ids (-1, reach + 1)).1 with
      | none => exact ⟨fj, hfj, le_refl _, rfl⟩
      | some ft => exact update_fighter_mono g _ ft damage hdmg hgt j fj hfj
  · rw [Game.fireballActivate]
    cases a.target with
    | none => exact ⟨fj, hfj, le_refl _, rfl⟩
    | some p =>
      dsimp only
      split
      · exact ⟨fj, hfj, le_refl _, rfl⟩
      · obtain ⟨fj', h1, h2, h3⟩ := fireballLoop_hp_mono damage reach p hdmg g.ids g j fj hfj
        split <;> exact ⟨fj', h1, h2, h3⟩
  · intro h0
    rw [Game.alive, hfj]
    simpa using h0

/-- Witness for C2's amended theorem at a concrete input: the orc keeps
`HP ≤ 10 = MaxHP` through a bump attack of the base game's player. -/
theorem hp_operations_bound_witness :
    ∃ fj', (baseGame.bumpAttack 0 1).fighter 1 = some fj' ∧
      fj'.HP ≤ 10 ∧ fj'.MaxHP = 10 :=
  (hp_operations_bound ⟨26, 30, 5, 2⟩ 4 (by decide) baseGame 0 1 ⟨10, 10, 3, 0⟩ (by decide)
    5 20 (by decide) ⟨0, none⟩).2.1

/-- Counterexample to C2 as stated: a bump attack of the player (power 5)
on an orc at 1 HP (defense 0) leaves the orc's fighter at `HP = -4`, so
`0 ≤ HP` does not hold after the operation (the entity is, as amended,
no longer alive). -/
theorem hp_operations_bound_counterexample :
    (bumpKillGame.bumpAttack 0 1).fighter 1 = some ⟨-4, 10, 3, 0⟩ ∧
    ((bumpKillGame.bumpAttack 0 1).fighter 1).map (fun fj => decide (0 ≤ fj.HP))
      = some false ∧
    (bumpKillGame.bumpAttack 0 1).alive 1 = false := by
  refine ⟨by decide, by decide, by decide⟩

/-- C1, amended: when its turn is handled, a living confused monster
attempts to step to a uniformly random adjacent cell among the four
*diagonal* neighbors of its position (both coordinates are shifted by
`±1`; the four equally likely draw pairs map bijectively onto the four
diagonal neighbors); if that cell is off-grid the monster does nothing
this turn (beyond consuming the two random draws), if it is the player's
cell the monster attacks the player, and otherwise it moves if and only
if the cell is walkable and holds no blocking entity. -/
theorem confused_monster_diagonal_step (g : Game) (i : Int) (r1 r2 : Nat) (rest : List Nat)
    (hr : g.rand2 = r1 :: r2 :: rest) (h1 : r1 < 2) (h2 : r2 < 2)
    (halive : g.alive i = true) (hconf : g.status i .confused = true) :
    (Game.confusedTarget (g.posOf i) r1 r2 ∈
      [(⟨(g.posOf i).x - 1, (g.posOf i).y - 1⟩ : Point), ⟨(g.posOf i).x - 1, (g.posOf i).y + 1⟩,
       ⟨(g.posOf i).x + 1, (g.posOf i).y - 1⟩, ⟨(g.posOf i).x + 1, (g.posOf i).y + 1⟩]) ∧
    (∀ q : Point,
      Game.confusedTarget q 0 0 = ⟨q.x - 1, q.y - 1⟩ ∧
      Game.confusedTarget q 0 1 = ⟨q.x - 1, q.y + 1⟩ ∧
      Game.confusedTarget q 1 0 = ⟨q.x + 1, q.y - 1⟩ ∧
      Game.confusedTarget q 1 1 = ⟨q.x + 1, q.y + 1⟩ ∧
      List.Nodup [(⟨q.x - 1, q.y - 1⟩ : Point), ⟨q.x - 1, q.y + 1⟩, ⟨q.x + 1, q.y - 1⟩,
        ⟨q.x + 1, q.y + 1⟩]) ∧
    (g.inGrid (Game.confusedTarget (g.posOf i) r1 r2) = false →
      g.handleMonsterTurn i = { g with rand2 := rest }) ∧
    (g.inGrid (Game.confusedTarget (g.posOf i) r1 r2) = true →
      Game.confusedTarget (g.posOf i) r1 r2 = g.pp →
      g.handleMonsterTurn i = ({ g with rand2 := rest } : Game).bumpAttack i g.playerID) ∧
    (g.inGrid (Game.confusedTarget (g.posOf i) r1 r2) = true →
      Game.confusedTarget (g.posOf i) r1 r2 ≠ g.pp →
      g.walkable (Game.confusedTarget (g.posOf i) r1 r2) = true →
      g.noBlockingEntityAt (Game.confusedTarget (g.posOf i) r1 r2) = true →
      g.handleMonsterTurn i =
        ({ g with rand2 := rest } : Game).moveEntity i (Game.confusedTarget (g.posOf i) r1 r2)) ∧
    (g.inGrid (Game.confusedTarget (g.posOf i) r1 r2) = true →
      Game.confusedTarget (g.posOf i) r1 r2 ≠ g.pp →
      (g.walkable (Game.confusedTarget (g.posOf i) r1 r2) = false ∨
        g.noBlockingEntityAt (Game.confusedTarget (g.posOf i) r1 r2) = false) →
      g.handleMonsterTurn i = { g with rand2 := rest }) := by
  have hstep : g.handleMonsterTurn i = g.handleConfusedMonster i := by
    rw [Game.handleMonsterTurn]
    simp [halive, hconf]
  have hcm : g.handleConfusedMonster i =
      (if ¬ g.inGrid (Game.confusedTarget (g.posOf i) r1 r2)
       then { g with rand2 := rest }
       else if Game.confusedTarget (g.posOf i) r1 r2 = g.pp
       then ({ g with rand2 := rest } : Game).bumpAttack i g.playerID
       else if g.walkable (Game.confusedTarget (g.posOf i) r1 r2) ∧
            g.noBlockingEntityAt (Game.confusedTarget (g.posOf i) r1 r2)
       then ({ g with rand2 := rest } : Game).moveEntity i
         (Game.confusedTarget (g.posOf i) r1 r2)
       else { g with rand2 := rest }) := by
    rw [Game.handleConfusedMonster]
    simp only [hr, List.headD_cons, List.drop_succ_cons, List.drop_zero]
  refine ⟨?_, ?_, ?_, ?_, ?_, ?_⟩
  · interval_cases r1 <;> interval_cases r2 <;>
      simp only [Game.confusedTarget, List.mem_cons, List.not_mem_nil, or_false,
        Point.mk.injEq] <;>
      omega
  · intro q
    refine ⟨?_, ?_, ?_, ?_, ?_⟩
    · simp only [Game.confusedTarget, Point.mk.injEq]
      omega
    · simp only [Game.confusedTarget, Point.mk.injEq]
      omega
    · simp only [Game.confusedTarget, Point.mk.injEq]
      omega
    · simp only [Game.confusedTarget, Point.mk.injEq]
      omega
    · simp only [List.nodup_cons, List.mem_cons, List.not_mem_nil, or_false,
        Point.mk.injEq, List.nodup_nil, and_true, true_and, not_false_eq_true, not_or]
      omega
  · intro hng
    rw [hstep, hcm, if_pos]
    simp [hng]
  · intro hig hpp
    rw [hstep, hcm, if_neg (by simp [hig]), if_pos hpp]
  · intro hig hpp hw hnb
    rw [hstep, hcm, if_neg (by simp [hig]), if_neg hpp, if_pos ⟨hw, hnb⟩]
  · intro hig hpp hor
    rw [hstep, hcm, if_neg (by simp [hig]), if_neg hpp, if_neg]
    rcases hor with h | h <;> simp [h]

/-- Witness for C1's amended theorem at a concrete input: the confused
orc's attempted cell is one of the four diagonal neighbors. -/
theorem confused_monster_diagonal_step_witness :
    Game.confusedTarget (confusedGame.posOf 1) 1 1 ∈
      [(⟨(confusedGame.posOf 1).x - 1, (confusedGame.posOf 1).y - 1⟩ : Point),
       ⟨(confusedGame.posOf 1).x - 1, (confusedGame.posOf 1).y + 1⟩,
       ⟨(confusedGame.posOf 1).x + 1, (confusedGame.posOf 1).y - 1⟩,
       ⟨(confusedGame.posOf 1).x + 1, (confusedGame.posOf 1).y + 1⟩] :=
  (confused_monster_diagonal_step confusedGame 1 1 1 [] rfl (by decide) (by decide)
    (by decide) (by decide)).1

/-- Counterexample to C1 as stated: with both `rand.Intn(2)` draws equal
to `1`, the confused orc at `(5, 5)` steps to `(6, 6)` — a diagonal
neighbor at Manhattan distance 2, not one of the four cardinal
neighbors (which all lie at distance 1). -/
theorem confused_monster_cardinal_counterexample :
    (confusedGame.handleMonsterTurn 1).positions 1 = some ⟨6, 6⟩ ∧
    distanceManhattan ⟨6, 6⟩ ⟨5, 5⟩ = 2 ∧
    confusedGame.positions 1 = some ⟨5, 5⟩ := by
  refine ⟨by decide, by decide, by decide⟩

theorem ccStep_subset (walk : Point → Bool) (s : List Point) : s ⊆ ccStep walk s :=
  fun _ ha => List.mem_append_left _ ha

theorem ccIter_subset (walk : Point → Bool) (src : Point) {k n : Nat} (hkn : k ≤ n) :
    (ccStep walk)^[k] [src] ⊆ (ccStep walk)^[n] [src] := by
  induction n with
  | zero =>
    have : k = 0 := Nat.le_zero.mp hkn
    subst this
    exact fun a ha => ha
  | succ n ih =>
    rcases Nat.lt_or_ge k (n + 1) with hlt | hge
    · intro a ha
      rw [Function.iterate_succ_apply']
      exact ccStep_subset walk _ (ih (Nat.lt_succ_iff.mp hlt) ha)
    · have : k = n + 1 := le_antisymm hkn hge
      subst this
      exact fun a ha => ha

theorem ccIter_reach (walk : Point → Bool) (src : Point) (n : Nat) :
    ∀ k, k ≤ n → ∀ p ∈ (ccStep walk)^[k] [src],
      ReachVia (fun q => walk q && decide (q ∈ (ccStep walk)^[n] [src])) src p := by
  intro k
  induction k with
  | zero =>
    intro _ p hp
    have : p = src := by simpa using hp
    subst this
    exact ReachVia.refl
  | succ k ih =>
    intro hkn p hp
    rw [Function.iterate_succ_apply'] at hp
    rcases List.mem_append.mp hp with hin | hnew
    · exact ih (Nat.le_of_succ_le hkn) p hin
    · obtain ⟨hmem, hcond⟩ := List.mem_filter.mp hnew
      obtain ⟨m, hm, hpm⟩ := List.mem_flatMap.mp hmem
      have hwalk : walk p = true := by
        have := hcond
        simp only [Bool.and_eq_true] at this
        exact this.1
      have hmr := ih (Nat.le_of_succ_le hkn) m hm
      refine ReachVia.step hmr hpm ?_
      have hpn : p ∈ (ccStep walk)^[n] [src] := by
        refine ccIter_subset walk src hkn ?_
        rw [Function.iterate_succ_apply']
        exact List.mem_append_right _ hnew
      simp [hwalk, hpn]

/-- C3, amended: `Map.Generate` performs the cellular-automata smoothing
(modelled by the input grid `cave`) and then a single connectivity-repair
pass that walls off every floor cell outside the component of the sampled
floor cell; it performs no minimum-size check and no regeneration, and it
surfaces no error.  Every floor cell of the returned map is a floor cell
of the smoothed cave that is 4-connected to the sampled cell through
returned floor cells; no lower bound on the returned floor area holds. -/
theorem map_generate_connected (cave : Point → Bool) (w h : Nat) (freep : Point)
    (p : Point) (hp : mapGenerate cave w h freep p = true) :
    cave p = true ∧ ReachVia (mapGenerate cave w h freep) freep p := by
  rw [mapGenerate, Bool.and_eq_true, decide_eq_true_eq] at hp
  obtain ⟨hc, hmem⟩ := hp
  refine ⟨hc, ?_⟩
  have hreach := ccIter_reach cave freep (w * h) (w * h) (le_refl _) p hmem
  have hgood : (fun q => cave q && decide (q ∈ (ccStep cave)^[w * h] [freep])) =
      mapGenerate cave w h freep := rfl
  rw [hgood] at hreach
  exact hreach

/-- Witness for C3's amended theorem at a concrete input: in the split
cave, the sampled cell itself is returned floor, is cave floor, and is
connected to itself. -/
theorem map_generate_connected_witness :
    splitCave ⟨0, 0⟩ = true ∧
    ReachVia (mapGenerate splitCave 3 3 ⟨0, 0⟩) ⟨0, 0⟩ ⟨0, 0⟩ :=
  map_generate_connected splitCave 3 3 ⟨0, 0⟩ ⟨0, 0⟩ (by decide)

/-- Counterexample to C3 as stated: generation does not regenerate when
the reachable floor area is small — on the split cave (2 floor cells,
not connected) it returns a map with reachable floor area 1, walling off
the far floor cell, so no minimum-size threshold on the returned area is
ensured and no retry happens. -/
theorem map_generate_min_area_counterexample :
    floorArea (mapGenerate splitCave 3 3 ⟨0, 0⟩) 3 3 = 1 ∧
    floorArea splitCave 3 3 = 2 ∧
    mapGenerate splitCave 3 3 ⟨0, 0⟩ ⟨2, 2⟩ = false ∧
    splitCave ⟨2, 2⟩ = true := by
  refine ⟨by decide, by decide, by decide, by decide⟩


/-! ### Frame lemmas: which state fields each operation leaves unchanged -/

theorem moveEntity_frame (g : Game) (i : Int) (p : Point) :
    (g.moveEntity i p).statuses = g.statuses ∧ (g.moveEntity i p).explored = g.explored ∧
    (g.moveEntity i p).inventory = g.inventory :=
  ⟨rfl, rfl, rfl⟩

theorem bumpAttack_frame (g : Game) (i j : Int) :
    (g.bumpAttack i j).statuses = g.statuses ∧ (g.bumpAttack i j).explored = g.explored ∧
    (g.bumpAttack i j).inventory = g.inventory := by
  rw [Game.bumpAttack]
  repeat' (first | split | dsimp only)
  all_goals exact ⟨rfl, rfl, rfl⟩

theorem aiMove_frame (g : Game) (i : Int) :
    (g.aiMove i).statuses = g.statuses ∧ (g.aiMove i).explored = g.explored ∧
    (g.aiMove i).inventory = g.inventory := by
  rw [Game.aiMove]
  repeat' (first | split | dsimp only)
  all_goals exact ⟨rfl, rfl, rfl⟩

theorem handleConfusedMonster_frame (g : Game) (i : Int) :
    (g.handleConfusedMonster i).statuses = g.statuses ∧
    (g.handleConfusedMonster i).explored = g.explored ∧
    (g.handleConfusedMonster i).inventory = g.inventory := by
  rw [Game.handleConfusedMonster]
  repeat' (first | split | dsimp only)
  all_goals
    first
    | exact ⟨rfl, rfl, rfl⟩
    | exact bumpAttack_frame _ i _

theorem handleMonsterTurn_frame (g : Game) (i : Int) :
    (g.handleMonsterTurn i).statuses = g.statuses ∧
    (g.handleMonsterTurn i).explored = g.explored ∧
    (g.handleMonsterTurn i).inventory = g.inventory := by
  rw [Game.handleMonsterTurn]
  repeat' (first | split | dsimp only)
  all_goals
    first
    | exact ⟨rfl, rfl, rfl⟩
    | exact handleConfusedMonster_frame g i
    | exact bumpAttack_frame _ i _
    | exact aiMove_frame _ i

theorem entityStep_frame (g : Game) (i : Int) :
    (g.entityStep i).statuses = g.statuses ∧ (g.entityStep i).explored = g.explored ∧
    (g.entityStep i).inventory = g.inventory := by
  rw [Game.entityStep]
  repeat' (first | split | dsimp only)
  all_goals first | exact ⟨rfl, rfl, rfl⟩ | exact handleMonsterTurn_frame g i

theorem endTurnFrom_statuses (l : List Int) :
    ∀ g : Game, (Game.endTurnFrom g l).statuses = g.statuses ∨
      (Game.endTurnFrom g l).statuses = fun i => (g.statuses i).nextTurn := by
  induction l with
  | nil => exact fun g => Or.inr rfl
  | cons i rest ih =>
    intro g
    rw [Game.endTurnFrom]
    split
    · exact Or.inl rfl
    · rcases ih (g.entityStep i) with h | h
      · exact Or.inl (by rw [h, (entityStep_frame g i).1])
      · refine Or.inr ?_
        rw [h]
        funext j
        rw [(entityStep_frame g i).1]

/-- C10, amended: the `EndTurn` monster loop checks for the player's
death only at the *start* of each iteration, so (a) whenever the player
is already dead when an iteration begins, `EndTurn` returns at once and
every status table is exactly as it was; (b) `EndTurn` always either
leaves every status table unchanged or applies exactly one decrement pass
to the tables as they stood at the start of the loop (monster turns never
touch statuses); but when the player dies during the very last iteration
no check remains, and the status decrement pass still runs on the turn
the player died. -/
theorem endTurn_death_skips_status_pass (g : Game) (l : List Int) :
    ((Game.endTurnFrom g l).statuses = g.statuses ∨
      (Game.endTurnFrom g l).statuses = fun i => (g.statuses i).nextTurn) ∧
    (∀ i rest, l = i :: rest → g.playerDied = true → Game.endTurnFrom g l = g) ∧
    ((Game.endTurn g).statuses = g.statuses ∨
      (Game.endTurn g).statuses = fun i => (g.statuses i).nextTurn) := by
  refine ⟨endTurnFrom_statuses l g, ?_, ?_⟩
  · intro i rest hl hdied
    subst hl
    rw [Game.endTurnFrom, if_pos hdied]
  · rw [Game.endTurn]
    rcases endTurnFrom_statuses (g.updateFOV).entityIds g.updateFOV with h | h
    · exact Or.inl h
    · exact Or.inr h

/-- Witness for C10's amended theorem at a concrete input: with the
player already dead, the loop returns at once. -/
theorem endTurn_death_skips_status_pass_witness :
    Game.endTurnFrom deadPlayerGame [1] = deadPlayerGame :=
  (endTurn_death_skips_status_pass deadPlayerGame [1]).2.1 1 [] rfl (by decide)

/-- Counterexample to C10 as stated: in `endTurnKillGame` the player dies
during the monster-iteration phase (killed by the orc handled in the last
iteration), yet `StatusesNextTurn` still runs: the far monster's confused
counter drops from 5 to 4 during that same `EndTurn`. -/
theorem endTurn_status_pass_after_death_counterexample :
    endTurnKillGame.playerDied = false ∧
    (Game.endTurn endTurnKillGame).playerDied = true ∧
    endTurnKillGame.statuses 2 .confused = some 5 ∧
    (Game.endTurn endTurnKillGame).statuses 2 .confused = some 4 := by
  refine ⟨by decide, by decide, by decide, by decide⟩
theorem fireballLoop_frame (dmg rad : Int) (p : Point) :
    ∀ (l : List Int) (g : Game),
      ((Game.fireballLoop dmg rad p g l).1).explored = g.explored ∧
      ((Game.fireballLoop dmg rad p g l).1).inventory = g.inventory ∧
      ((Game.fireballLoop dmg rad p g l).1).positions = g.positions ∧
      ((Game.fireballLoop dmg rad p g l).1).statuses = g.statuses := by
  intro l
  induction l with
  | nil => exact fun g => ⟨rfl, rfl, rfl, rfl⟩
  | cons i rest ih =>
    intro g
    rw [Game.fireballLoop]
    cases g.fighter i with
    | none => exact ih g
    | some fi =>
      dsimp only
      split
      · exact ih g
      · split
        · exact ih g
        · exact ih
            { g with fighter := Function.update g.fighter i (some { fi with HP := fi.HP - dmg }) }

theorem healingPotionActivate_frame (g : Game) (amount : Int) (a : ItemAction) :
    ((g.healingPotionActivate amount a).1).explored = g.explored ∧
    ((g.healingPotionActivate amount a).1).inventory = g.inventory ∧
    ((g.healingPotionActivate amount a).1).positions = g.positions ∧
    ((g.healingPotionActivate amount a).1).statuses = g.statuses := by
  rw [Game.healingPotionActivate]
  repeat' (first | split | dsimp only)
  all_goals exact ⟨rfl, rfl, rfl, rfl⟩

theorem lightningActivate_frame (g : Game) (reach damage : Int) (a : ItemAction) :
    ((g.lightningActivate reach damage a).1).explored = g.explored ∧
    ((g.lightningActivate reach damage a).1).inventory = g.inventory ∧
    ((g.lightningActivate reach damage a).1).positions = g.positions ∧
    ((g.lightningActivate reach damage a).1).statuses = g.statuses := by
  rw [Game.lightningActivate]
  repeat' (first | split | dsimp only)
  all_goals exact ⟨rfl, rfl, rfl, rfl⟩

theorem confusionActivate_frame (g : Game) (turns : Int) (a : ItemAction) :
    ((g.confusionActivate turns a).1).explored = g.explored ∧
    ((g.confusionActivate turns a).1).inventory = g.inventory ∧
    ((g.confusionActivate turns a).1).positions = g.positions := by
  rw [Game.confusionActivate]
  repeat' (first | split | dsimp only)
  all_goals exact ⟨rfl, rfl, rfl⟩

theorem fireballActivate_frame (g : Game) (damage radius : Int) (a : ItemAction) :
    ((g.fireballActivate damage radius a).1).explored = g.explored ∧
    ((g.fireballActivate damage radius a).1).inventory = g.inventory ∧
    ((g.fireballActivate damage radius a).1).positions = g.positions := by
  rw [Game.fireballActivate]
  repeat' (first | split | dsimp only)
  all_goals
    first
    | exact ⟨rfl, rfl, rfl⟩
    | (obtain ⟨h1, h2, h3, _⟩ := fireballLoop_frame damage radius _ g.ids g
       exact ⟨h1, h2, h3⟩)

theorem activateEntity_frame (g : Game) (e : Entity) (a : ItemAction) :
    ((g.activateEntity e a).1).explored = g.explored ∧
    ((g.activateEntity e a).1).inventory = g.inventory ∧
    ((g.activateEntity e a).1).positions = g.positions := by
  cases e with
  | healingPotion amount =>
    obtain ⟨h1, h2, h3, _⟩ := healingPotionActivate_frame g amount a
    exact ⟨h1, h2, h3⟩
  | lightningScroll reach damage =>
    obtain ⟨h1, h2, h3, _⟩ := lightningActivate_frame g reach damage a
    exact ⟨h1, h2, h3⟩
  | confusionScroll turns => exact confusionActivate_frame g turns a
  | fireballScroll damage radius => exact fireballActivate_frame g damage radius a
  | player => exact ⟨rfl, rfl, rfl⟩
  | monster => exact ⟨rfl, rfl, rfl⟩

theorem inventoryActivateWithTarget_explored (g : Game) (actor : Int) (n : Nat)
    (targ : Option Point) :
    ((g.inventoryActivateWithTarget actor n targ).1).explored = g.explored := by
  have hact : ∀ e? : Option Entity,
      ((match e? with
        | some e => if e.isConsumable then g.activateEntity e ⟨actor, targ⟩ else (g, none)
        | none => ((g, none) : Outcome)) : Outcome).1.explored = g.explored := by
    intro e?
    cases e? with
    | none => rfl
    | some e =>
      dsimp only
      split
      · exact (activateEntity_frame g e ⟨actor, targ⟩).1
      · rfl
  rw [Game.inventoryActivateWithTarget]
  dsimp only
  split
  · rfl
  · split
    · exact hact _
    · exact hact _

theorem endTurnFrom_explored (l : List Int) :
    ∀ g : Game, (Game.endTurnFrom g l).explored = g.explored := by
  induction l with
  | nil => exact fun g => rfl
  | cons i rest ih =>
    intro g
    rw [Game.endTurnFrom]
    split
    · rfl
    · rw [ih (g.entityStep i), (entityStep_frame g i).2.1]

/-- C9: the explored-cell set grows monotonically — a cell marked
explored stays explored through the FOV update, through a whole
`EndTurn` (FOV update, every monster turn, status pass), and through
item activations from the inventory. -/
theorem explored_monotonic (g : Game) (p : Point) (hp : g.explored p = true)
    (actor : Int) (n : Nat) (targ : Option Point) :
    (g.updateFOV).explored p = true ∧
    (Game.endTurn g).explored p = true ∧
    ((g.inventoryActivateWithTarget actor n targ).1).explored p = true := by
  have hup : (g.updateFOV).explored p = true := by
    rw [Game.updateFOV]
    dsimp only
    rw [hp]
    rfl
  refine ⟨hup, ?_, ?_⟩
  · rw [Game.endTurn]
    rw [endTurnFrom_explored]
    exact hup
  · rw [inventoryActivateWithTarget_explored]
    exact hp

/-- Witness for C9 at a concrete input: the cell `(2, 3)`, already
explored, stays explored through `EndTurn`. -/
theorem explored_monotonic_witness :
    (Game.endTurn { baseGame with explored := fun q => q = ⟨2, 3⟩ }).explored ⟨2, 3⟩
      = true :=
  (explored_monotonic { baseGame with explored := fun q => q = ⟨2, 3⟩ } ⟨2, 3⟩ (by decide)
    0 0 none).2.1
theorem removeSlot_spec (l : List Int) (n : Nat) (hn : n < l.length) :
    (Game.removeSlot l n).length + 1 = l.length ∧
    ∀ k, k < l.length - 1 →
      (Game.removeSlot l n).getD k 0 = if k = n then l.getLastD 0 else l.getD k 0 := by
  rw [Game.removeSlot]
  have hlen : ((l.set n (l.getLastD 0)).dropLast).length = l.length - 1 := by
    rw [List.length_dropLast, List.length_set]
  refine ⟨by omega, ?_⟩
  intro k hk
  have hk' : k < ((l.set n (l.getLastD 0)).dropLast).length := by omega
  have hk3 : k < l.length := by omega
  rw [List.getD_eq_getElem _ _ hk', List.getElem_dropLast, List.getElem_set]
  split
  · next hnk =>
    rw [if_pos hnk.symm]
  · next hnk =>
    rw [if_neg (fun h => hnk h.symm), List.getD_eq_getElem _ _ hk3]

/-- C5: for a slot `n` holding a consumable, a successful activation
swap-removes exactly slot `n` (the former last slot moves onto it, the
length drops by one, all other slots keep their item) and returns no
error; a failed activation returns the failure to the caller and leaves
the inventory entirely unchanged. -/
theorem inventory_activate_consumable (g : Game) (actor : Int) (n : Nat) (targ : Option Point)
    (e : Entity) (hn : n < (g.inventory actor).length)
    (he : g.entities ((g.inventory actor).getD n 0) = some e)
    (hc : e.isConsumable = true) :
    (∀ g', g.activateEntity e ⟨actor, targ⟩ = (g', none) →
      g.inventoryActivateWithTarget actor n targ =
        ({ g' with inventory := (Function.update g'.inventory actor (Game.removeSlot (g.inventory actor) n)) }, none) ∧
      (((g.inventoryActivateWithTarget actor n targ).1).inventory actor).length + 1 =
        (g.inventory actor).length ∧
      (∀ k, k < (g.inventory actor).length - 1 →
        (((g.inventoryActivateWithTarget actor n targ).1).inventory actor).getD k 0 =
          if k = n then (g.inventory actor).getLastD 0 else (g.inventory actor).getD k 0)) ∧
    (∀ g' err, g.activateEntity e ⟨actor, targ⟩ = (g', some err) →
      g.inventoryActivateWithTarget actor n targ = (g', some err) ∧
      g'.inventory actor = g.inventory actor) := by
  have hinv : (g.activateEntity e ⟨actor, targ⟩).1.inventory = g.inventory :=
    (activateEntity_frame g e ⟨actor, targ⟩).2.1
  have hdef : g.inventoryActivateWithTarget actor n targ =
      (match (g.activateEntity e ⟨actor, targ⟩).2 with
       | some err => ((g.activateEntity e ⟨actor, targ⟩).1, some err)
       | none =>
         ({ (g.activateEntity e ⟨actor, targ⟩).1 with
            inventory := (Function.update ((g.activateEntity e ⟨actor, targ⟩).1.inventory) actor (Game.removeSlot (((g.activateEntity e ⟨actor, targ⟩).1.inventory) actor) n)) }, none)) := by
    rw [Game.inventoryActivateWithTarget]
    dsimp only
    rw [if_neg (by omega : ¬ ((g.inventory actor).length ≤ n)), he]
    dsimp only
    rw [if_pos hc]
  constructor
  · intro g' hsucc
    rw [hsucc] at hdef hinv
    dsimp only at hdef hinv
    rw [congrFun hinv actor] at hdef
    refine ⟨hdef, ?_, ?_⟩
    · rw [hdef]
      dsimp only
      rw [Function.update_same]
      exact (removeSlot_spec (g.inventory actor) n hn).1
    · intro k hk
      rw [hdef]
      dsimp only
      rw [Function.update_same]
      exact (removeSlot_spec (g.inventory actor) n hn).2 k hk
  · intro g' err herr
    rw [herr] at hdef hinv
    dsimp only at hdef hinv
    exact ⟨hdef, congrFun hinv actor⟩

/-- Witness for C5 at a concrete input: drinking the only potion from
slot 0 succeeds and empties the inventory. -/
theorem inventory_activate_consumable_witness :
    potionGame.inventoryActivateWithTarget 0 0 none =
      ({ (potionGame.activateEntity (.healingPotion 4) ⟨0, none⟩).1 with
         inventory := (Function.update ((potionGame.activateEntity (.healingPotion 4) ⟨0, none⟩).1).inventory 0 (Game.removeSlot (potionGame.inventory 0) 0)) }, none) := by
  have h2 : (potionGame.activateEntity (.healingPotion 4) ⟨0, none⟩).2 = none := by decide
  have heq : potionGame.activateEntity (.healingPotion 4) ⟨0, none⟩ =
      ((potionGame.activateEntity (.healingPotion 4) ⟨0, none⟩).1, none) := by
    rw [← h2]
  exact ((inventory_activate_consumable potionGame 0 0 none (.healingPotion 4) (by decide)
    (by decide) (by decide)).1 _ heq).1
theorem monsterAtList_spec (g : Game) (p : Point) : ∀ l : List Int,
    (g.monsterAtList p l = -1 ∧
      ∀ i ∈ l, ¬(g.positions i = some p ∧ g.alive i = true ∧ g.entities i = some .monster)) ∨
    (g.monsterAtList p l ∈ l ∧ g.positions (g.monsterAtList p l) = some p ∧
      g.alive (g.monsterAtList p l) = true ∧
      g.entities (g.monsterAtList p l) = some .monster) := by
  intro l
  induction l with
  | nil => exact Or.inl ⟨rfl, fun i hi => absurd hi (List.not_mem_nil i)⟩
  | cons i rest ih =>
    rw [Game.monsterAtList]
    split
    · next hcond =>
      obtain ⟨h1, h2, h3⟩ := hcond
      exact Or.inr ⟨List.mem_cons_self i rest, h1, h2, h3⟩
    · next hcond =>
      rcases ih with ⟨hres, hnone⟩ | ⟨hmem, h1, h2, h3⟩
      · refine Or.inl ⟨hres, fun j hj => ?_⟩
        rcases List.mem_cons.mp hj with hji | hjr
        · subst hji
          exact hcond
        · exact hnone j hjr
      · exact Or.inr ⟨List.mem_cons_of_mem i hmem, h1, h2, h3⟩

/-- C8: `MonsterAt` returns an id of a *living* monster-kind entity at
`p` when one exists (never the player, never a dead monster) and the
sentinel `-1` otherwise, and `NoBlockingEntityAt` is false exactly when
`p` is the player's position or holds a living monster.  The hypotheses
record that Go ids are nonnegative (no fighter entry at `-1`) and that
the player id holds the player entity. -/
theorem monsterAt_noBlocking (g : Game) (p : Point)
    (hneg : g.fighter (-1) = none) (hplayer : g.entities g.playerID = some .player) :
    ((∃ i ∈ g.ids, g.positions i = some p ∧ g.alive i = true ∧ g.entities i = some .monster) →
      g.monsterAt p ∈ g.ids ∧ g.positions (g.monsterAt p) = some p ∧
      g.alive (g.monsterAt p) = true ∧ g.entities (g.monsterAt p) = some .monster ∧
      g.monsterAt p ≠ g.playerID) ∧
    ((¬ ∃ i ∈ g.ids, g.positions i = some p ∧ g.alive i = true ∧
        g.entities i = some .monster) →
      g.monsterAt p = -1) ∧
    (g.noBlockingEntityAt p = false ↔
      (g.pp = p ∨ ∃ i ∈ g.ids, g.positions i = some p ∧ g.alive i = true ∧
        g.entities i = some .monster)) := by
  have hspec := monsterAtList_spec g p g.ids
  have halive : g.alive (g.monsterAt p) = true ↔
      (∃ i ∈ g.ids, g.positions i = some p ∧ g.alive i = true ∧
        g.entities i = some .monster) := by
    constructor
    · intro ha
      rcases hspec with ⟨hres, _⟩ | ⟨hmem, h1, h2, h3⟩
      · rw [Game.monsterAt] at ha
        rw [hres] at ha
        rw [Game.alive, hneg] at ha
        cases ha
      · exact ⟨g.monsterAt p, hmem, h1, h2, h3⟩
    · intro hex
      rcases hspec with ⟨_, hnone⟩ | ⟨_, _, h2, _⟩
      · obtain ⟨i, hi, hprops⟩ := hex
        exact absurd hprops (hnone i hi)
      · exact h2
  have hfound : (∃ i ∈ g.ids, g.positions i = some p ∧ g.alive i = true ∧
      g.entities i = some .monster) →
      g.monsterAt p ∈ g.ids ∧ g.positions (g.monsterAt p) = some p ∧
      g.alive (g.monsterAt p) = true ∧ g.entities (g.monsterAt p) = some .monster := by
    intro hex
    rcases hspec with ⟨_, hnone⟩ | ⟨hmem, h1, h2, h3⟩
    · obtain ⟨i, hi, hprops⟩ := hex
      exact absurd hprops (hnone i hi)
    · exact ⟨hmem, h1, h2, h3⟩
  refine ⟨?_, ?_, ?_⟩
  · intro hex
    obtain ⟨hmem, h1, h2, h3⟩ := hfound hex
    refine ⟨hmem, h1, h2, h3, fun heq => ?_⟩
    rw [heq, hplayer] at h3
    cases h3
  · intro hnex
    rcases hspec with ⟨hres, _⟩ | ⟨hmem, h1, h2, h3⟩
    · exact hres
    · exact absurd ⟨g.monsterAt p, hmem, h1, h2, h3⟩ hnex
  · rw [Game.noBlockingEntityAt, decide_eq_false_iff_not, not_and_or, not_not, not_ne_iff]
    rw [halive]

/-- Witness for C8 at a concrete input: the orc of the base game is found
at its cell. -/
theorem monsterAt_noBlocking_witness :
    baseGame.monsterAt ⟨3, 1⟩ ∈ baseGame.ids ∧
    baseGame.positions (baseGame.monsterAt ⟨3, 1⟩) = some ⟨3, 1⟩ ∧
    baseGame.alive (baseGame.monsterAt ⟨3, 1⟩) = true ∧
    baseGame.entities (baseGame.monsterAt ⟨3, 1⟩) = some .monster ∧
    baseGame.monsterAt ⟨3, 1⟩ ≠ baseGame.playerID :=
  (monsterAt_noBlocking baseGame ⟨3, 1⟩ (by decide) (by decide)).1 (by decide)
theorem alive_of_fighter_not_dead (g : Game) (i : Int) (hf : (g.fighter i).isSome = true)
    (hd : ¬ g.dead i = true) : g.alive i = true := by
  rw [Game.alive]
  rw [Game.dead] at hd
  cases hfi : g.fighter i with
  | none => rw [hfi] at hf; cases hf
  | some fi =>
    rw [hfi] at hd
    simp only [decide_eq_true_eq] at hd ⊢
    omega

theorem lightningScan_no_improver (g : Game) (actor : Int) :
    ∀ (l : List Int) (t md : Int),
      (∀ i ∈ l, g.alive i = true → i ≠ actor → g.inFOV (g.posOf i) = true →
        ¬(distanceManhattan (g.posOf i) (g.posOf actor) < md)) →
      g.lightningScan actor l (t, md) = (t, md) := by
  intro l
  induction l with
  | nil => intro t md _; rfl
  | cons i rest ih =>
    intro t md hno
    have hrest : ∀ j ∈ rest, g.alive j = true → j ≠ actor → g.inFOV (g.posOf j) = true →
        ¬(distanceManhattan (g.posOf j) (g.posOf actor) < md) :=
      fun j hj => hno j (List.mem_cons_of_mem i hj)
    rw [Game.lightningScan]
    dsimp only
    by_cases hsome : (g.fighter i).isSome = true
    · rw [if_pos hsome]
      by_cases hskip : i = actor ∨ g.dead i = true ∨ ¬ g.inFOV (g.posOf i) = true
      · rw [if_pos hskip]
        exact ih t md hrest
      · rw [if_neg hskip]
        push_neg at hskip
        obtain ⟨hact, hdead, hfov⟩ := hskip
        have halive := alive_of_fighter_not_dead g i hsome hdead
        have hfov' : g.inFOV (g.posOf i) = true := by
          simpa using hfov
        rw [if_neg (hno i (List.mem_cons_self i rest) halive hact hfov')]
        exact ih t md hrest
    · rw [if_neg hsome]
      exact ih t md hrest

theorem lightningScan_finds (g : Game) (actor : Int) :
    ∀ (l : List Int) (t md : Int),
      (∃ j ∈ l, g.alive j = true ∧ j ≠ actor ∧ g.inFOV (g.posOf j) = true ∧
        distanceManhattan (g.posOf j) (g.posOf actor) < md) →
      ∃ l₁ l₂, l = l₁ ++ (g.lightningScan actor l (t, md)).1 :: l₂ ∧
        g.alive (g.lightningScan actor l (t, md)).1 = true ∧
        (g.lightningScan actor l (t, md)).1 ≠ actor ∧
        g.inFOV (g.posOf (g.lightningScan actor l (t, md)).1) = true ∧
        distanceManhattan (g.posOf (g.lightningScan actor l (t, md)).1) (g.posOf actor) =
          (g.lightningScan actor l (t, md)).2 ∧
        (g.lightningScan actor l (t, md)).2 < md ∧
        (∀ j ∈ l, g.alive j = true → j ≠ actor → g.inFOV (g.posOf j) = true →
          (g.lightningScan actor l (t, md)).2 ≤
            distanceManhattan (g.posOf j) (g.posOf actor)) ∧
        (∀ j ∈ l₁, g.alive j = true → j ≠ actor → g.inFOV (g.posOf j) = true →
          (g.lightningScan actor l (t, md)).2 <
            distanceManhattan (g.posOf j) (g.posOf actor)) := by
  intro l
  induction l with
  | nil =>
    intro t md hex
    obtain ⟨j, hj, _⟩ := hex
    exact absurd hj (List.not_mem_nil j)
  | cons i rest ih =>
    intro t md hex
    by_cases hqi : (g.fighter i).isSome = true ∧
        ¬(i = actor ∨ g.dead i = true ∨ ¬ g.inFOV (g.posOf i) = true) ∧
        distanceManhattan (g.posOf i) (g.posOf actor) < md
    · -- the head strictly improves: the scan continues with (i, d i)
      obtain ⟨hsome, hskip, hdi⟩ := hqi
      push_neg at hskip
      obtain ⟨hact, hdead, hfov⟩ := hskip
      have halive := alive_of_fighter_not_dead g i hsome hdead
      have hfov' : g.inFOV (g.posOf i) = true := by simpa using hfov
      have hstep : g.lightningScan actor (i :: rest) (t, md) =
          g.lightningScan actor rest (i, distanceManhattan (g.posOf i) (g.posOf actor)) := by
        rw [Game.lightningScan]
        dsimp only
        rw [if_pos hsome, if_neg (by simp [hact, hdead, hfov']), if_pos hdi]
      by_cases hrest : ∃ j ∈ rest, g.alive j = true ∧ j ≠ actor ∧
          g.inFOV (g.posOf j) = true ∧ distanceManhattan (g.posOf j) (g.posOf actor) <
            distanceManhattan (g.posOf i) (g.posOf actor)
      · obtain ⟨l₁, l₂, hsplit, ha, hb, hc, hd, he, hmin, hearly⟩ :=
          ih (i) (distanceManhattan (g.posOf i) (g.posOf actor)) hrest
        rw [hstep]
        refine ⟨i :: l₁, l₂, by rw [List.cons_append, ← hsplit], ha, hb, hc, hd, lt_trans he hdi, ?_, ?_⟩
        · intro j hj h1 h2 h3
          rcases List.mem_cons.mp hj with hji | hjr
          · subst hji
            exact le_of_lt he
          · exact hmin j hjr h1 h2 h3
        · intro j hj h1 h2 h3
          rcases List.mem_cons.mp hj with hji | hjr
          · subst hji
            exact he
          · exact hearly j hjr h1 h2 h3
      · have hstop : g.lightningScan actor rest
            (i, distanceManhattan (g.posOf i) (g.posOf actor)) =
            (i, distanceManhattan (g.posOf i) (g.posOf actor)) := by
          refine lightningScan_no_improver g actor rest i _ ?_
          intro j hj h1 h2 h3 hlt
          exact hrest ⟨j, hj, h1, h2, h3, hlt⟩
        rw [hstep, hstop]
        refine ⟨[], rest, rfl, halive, hact, hfov', rfl, hdi, ?_, ?_⟩
        · intro j hj h1 h2 h3
          rcases List.mem_cons.mp hj with hji | hjr
          · subst hji
            exact le_refl _
          · by_contra hlt
            push_neg at hlt
            exact hrest ⟨j, hjr, h1, h2, h3, hlt⟩
        · intro j hj
          exact absurd hj (List.not_mem_nil j)
    · -- the head does not improve: the scan continues with (t, md)
      have hstep : g.lightningScan actor (i :: rest) (t, md) =
          g.lightningScan actor rest (t, md) := by
        rw [Game.lightningScan]
        dsimp only
        by_cases hsome : (g.fighter i).isSome = true
        · rw [if_pos hsome]
          by_cases hskip : i = actor ∨ g.dead i = true ∨ ¬ g.inFOV (g.posOf i) = true
          · rw [if_pos (by simpa using hskip)]
          · rw [if_neg (by simpa using hskip)]
            have hdi : ¬ distanceManhattan (g.posOf i) (g.posOf actor) < md :=
              fun hlt => hqi ⟨hsome, by simpa using hskip, hlt⟩
            rw [if_neg hdi]
        · rw [if_neg hsome]
      have hex' : ∃ j ∈ rest, g.alive j = true ∧ j ≠ actor ∧
          g.inFOV (g.posOf j) = true ∧
          distanceManhattan (g.posOf j) (g.posOf actor) < md := by
        obtain ⟨j, hj, h1, h2, h3, h4⟩ := hex
        rcases List.mem_cons.mp hj with hji | hjr
        · subst hji
          have hsome : (g.fighter j).isSome = true := by
            rw [Game.alive] at h1
            cases hfj : g.fighter j with
            | none => rw [hfj] at h1; cases h1
            | some fj => rfl
          have hdead : ¬ g.dead j = true := by
            rw [Game.alive] at h1
            rw [Game.dead]
            cases hfj : g.fighter j with
            | none => simp
            | some fj =>
              rw [hfj] at h1
              simp only [decide_eq_true_eq] at h1 ⊢
              omega
          exact absurd ⟨hsome, by simp [h2, hdead, h3], h4⟩ hqi
        · exact ⟨j, hjr, h1, h2, h3, h4⟩
      obtain ⟨l₁, l₂, hsplit, ha, hb, hc, hd, he, hmin, hearly⟩ := ih t md hex'
      rw [hstep]
      refine ⟨i :: l₁, l₂, by rw [List.cons_append, ← hsplit], ha, hb, hc, hd, he, ?_, ?_⟩
      · intro j hj h1 h2 h3
        rcases List.mem_cons.mp hj with hji | hjr
        · subst hji
          have hsome : (g.fighter j).isSome = true := by
            rw [Game.alive] at h1
            cases hfj : g.fighter j with
            | none => rw [hfj] at h1; cases h1
            | some fj => rfl
          have hdead : ¬ g.dead j = true := by
            rw [Game.alive] at h1
            rw [Game.dead]
            cases hfj : g.fighter j with
            | none => simp
            | some fj =>
              rw [hfj] at h1
              simp only [decide_eq_true_eq] at h1 ⊢
              omega
          have hnlt : ¬ distanceManhattan (g.posOf j) (g.posOf actor) < md :=
            fun hlt => hqi ⟨hsome, by simp [h2, hdead, h3], hlt⟩
          omega
        · exact hmin j hjr h1 h2 h3
      · intro j hj h1 h2 h3
        rcases List.mem_cons.mp hj with hji | hjr
        · subst hji
          have hsome : (g.fighter j).isSome = true := by
            rw [Game.alive] at h1
            cases hfj : g.fighter j with
            | none => rw [hfj] at h1; cases h1
            | some fj => rfl
          have hdead : ¬ g.dead j = true := by
            rw [Game.alive] at h1
            rw [Game.dead]
            cases hfj : g.fighter j with
            | none => simp
            | some fj =>
              rw [hfj] at h1
              simp only [decide_eq_true_eq] at h1 ⊢
              omega
          have hnlt : ¬ distanceManhattan (g.posOf j) (g.posOf actor) < md :=
            fun hlt => hqi ⟨hsome, by simp [h2, hdead, h3], hlt⟩
          omega
        · exact hearly j hjr h1 h2 h3
/-- C7: lightning strikes, among all living fighter-bearing entities
other than the actor that are visible and within the scroll's range of
the actor (Manhattan distance), the first entity in iteration order at
the strictly minimal distance, subtracting the scroll's damage from its
HP only; when no entity qualifies it fails with "no enemy within range"
and changes nothing. -/
theorem lightning_strikes_closest (g : Game) (reach damage : Int) (a : ItemAction)
    (hids : ∀ i ∈ g.ids, 0 ≤ i) :
    ((¬ ∃ j ∈ g.ids, g.alive j = true ∧ j ≠ a.actor ∧ g.inFOV (g.posOf j) = true ∧
        distanceManhattan (g.posOf j) (g.posOf a.actor) ≤ reach) →
      g.lightningActivate reach damage a = (g, some "No enemy within range.")) ∧
    ((∃ j ∈ g.ids, g.alive j = true ∧ j ≠ a.actor ∧ g.inFOV (g.posOf j) = true ∧
        distanceManhattan (g.posOf j) (g.posOf a.actor) ≤ reach) →
      ∃ t l₁ l₂, g.ids = l₁ ++ t :: l₂ ∧
        g.alive t = true ∧ t ≠ a.actor ∧ g.inFOV (g.posOf t) = true ∧
        distanceManhattan (g.posOf t) (g.posOf a.actor) ≤ reach ∧
        (∀ j ∈ g.ids, g.alive j = true → j ≠ a.actor → g.inFOV (g.posOf j) = true →
          distanceManhattan (g.posOf t) (g.posOf a.actor) ≤
            distanceManhattan (g.posOf j) (g.posOf a.actor)) ∧
        (∀ j ∈ l₁, g.alive j = true → j ≠ a.actor → g.inFOV (g.posOf j) = true →
          distanceManhattan (g.posOf t) (g.posOf a.actor) <
            distanceManhattan (g.posOf j) (g.posOf a.actor)) ∧
        (∃ ft, g.fighter t = some ft ∧
          g.lightningActivate reach damage a =
            ({ g with fighter := (Function.update g.fighter t (some { ft with HP := ft.HP - damage })) }, none))) := by
  constructor
  · intro hnex
    have hscan : g.lightningScan a.actor g.ids (-1, reach + 1) = (-1, reach + 1) := by
      refine lightningScan_no_improver g a.actor g.ids (-1) (reach + 1) ?_
      intro j hj h1 h2 h3 hlt
      exact hnex ⟨j, hj, h1, h2, h3, by omega⟩
    rw [Game.lightningActivate]
    rw [hscan]
    rfl
  · intro hex
    obtain ⟨j0, hj0, h1, h2, h3, h4⟩ := hex
    obtain ⟨l₁, l₂, hsplit, ha, hb, hc, hd, he, hmin, hearly⟩ :=
      lightningScan_finds g a.actor g.ids (-1) (reach + 1) ⟨j0, hj0, h1, h2, h3, by omega⟩
    set res := g.lightningScan a.actor g.ids (-1, reach + 1) with hres
    have htmem : res.1 ∈ g.ids := by
      rw [hsplit]
      exact List.mem_append_right _ (List.mem_cons_self _ _)
    have htpos : 0 ≤ res.1 := hids res.1 htmem
    have hft : ∃ ft, g.fighter res.1 = some ft := by
      rw [Game.alive] at ha
      cases hfr : g.fighter res.1 with
      | none => rw [hfr] at ha; cases ha
      | some ft => exact ⟨ft, rfl⟩
    obtain ⟨ft, hft⟩ := hft
    refine ⟨res.1, l₁, l₂, hsplit, ha, hb, hc, by omega, ?_, ?_, ft, hft, ?_⟩
    · intro j hj hq1 hq2 hq3
      have := hmin j hj hq1 hq2 hq3
      omega
    · intro j hj hq1 hq2 hq3
      have := hearly j hj hq1 hq2 hq3
      omega
    · rw [Game.lightningActivate]
      rw [← hres, if_neg (by omega), hft]
  
/-- Witness for C7 at a concrete input: in the base game the orc at
distance 2 is struck by a lightning scroll of range 5. -/
theorem lightning_strikes_closest_witness :
    ∃ t l₁ l₂, baseGame.ids = l₁ ++ t :: l₂ ∧
      baseGame.alive t = true ∧ t ≠ (0 : Int) ∧ baseGame.inFOV (baseGame.posOf t) = true ∧
      distanceManhattan (baseGame.posOf t) (baseGame.posOf 0) ≤ 5 ∧
      (∀ j ∈ baseGame.ids, baseGame.alive j = true → j ≠ (0 : Int) →
        baseGame.inFOV (baseGame.posOf j) = true →
        distanceManhattan (baseGame.posOf t) (baseGame.posOf 0) ≤
          distanceManhattan (baseGame.posOf j) (baseGame.posOf 0)) ∧
      (∀ j ∈ l₁, baseGame.alive j = true → j ≠ (0 : Int) →
        baseGame.inFOV (baseGame.posOf j) = true →
        distanceManhattan (baseGame.posOf t) (baseGame.posOf 0) <
          distanceManhattan (baseGame.posOf j) (baseGame.posOf 0)) ∧
      (∃ ft, baseGame.fighter t = some ft ∧
        baseGame.lightningActivate 5 20 ⟨0, none⟩ =
          ({ baseGame with fighter := (Function.update baseGame.fighter t (some { ft with HP := ft.HP - 20 })) }, none)) :=
  (lightning_strikes_closest baseGame 5 20 ⟨0, none⟩ (by decide)).2 (by decide)
theorem alive_update_ne (g : Game) (i : Int) (v : Option Fighter) (j : Int) (hij : j ≠ i) :
    ({ g with fighter := Function.update g.fighter i v } : Game).alive j = g.alive j := by
  simp only [Game.alive, Function.update_noteq hij]

theorem fireballLoop_char (dmg rad : Int) (p : Point) :
    ∀ (l : List Int) (g : Game), l.Nodup →
      ((Game.fireballLoop dmg rad p g l).1.fighter = fun j =>
        if j ∈ l ∧ g.alive j = true ∧ distanceManhattan (g.posOf j) p ≤ rad
        then (g.fighter j).map (fun fj => { fj with HP := fj.HP - dmg })
        else g.fighter j) ∧
      (Game.fireballLoop dmg rad p g l).2 =
        (l.filter (fun j => g.alive j && decide (distanceManhattan (g.posOf j) p ≤ rad))).length := by
  intro l
  induction l with
  | nil =>
    intro g _
    refine ⟨funext fun j => ?_, rfl⟩
    simp [Game.fireballLoop]
  | cons i rest ih =>
    intro g hnd
    have hi : i ∉ rest := (List.nodup_cons.mp hnd).1
    have hnd' : rest.Nodup := (List.nodup_cons.mp hnd).2
    rw [Game.fireballLoop]
    cases hfi : g.fighter i with
    | none =>
      have halive : g.alive i = false := by rw [Game.alive, hfi]
      obtain ⟨ihf, ihc⟩ := ih g hnd'
      dsimp only
      refine ⟨?_, ?_⟩
      · rw [ihf]
        funext j
        by_cases hij : j = i
        · subst hij
          simp [halive]
        · simp [List.mem_cons, hij]
      · rw [ihc, List.filter_cons]
        simp [halive]
    | some fi =>
      dsimp only
      by_cases hdead : g.dead i = true
      · rw [if_pos hdead]
        have halive : g.alive i = false := by
          rw [Game.dead, hfi] at hdead
          rw [Game.alive, hfi]
          simp only [decide_eq_true_eq] at hdead
          simp only [decide_eq_false_iff_not]
          omega
        obtain ⟨ihf, ihc⟩ := ih g hnd'
        refine ⟨?_, ?_⟩
        · rw [ihf]
          funext j
          by_cases hij : j = i
          · subst hij
            simp [halive]
          · simp [List.mem_cons, hij]
        · rw [ihc, List.filter_cons]
          simp [halive]
      · rw [if_neg hdead]
        by_cases hdist : distanceManhattan (g.posOf i) p > rad
        · rw [if_pos hdist]
          have hdist' : ¬ (distanceManhattan (g.posOf i) p ≤ rad) := by omega
          obtain ⟨ihf, ihc⟩ := ih g hnd'
          refine ⟨?_, ?_⟩
          · rw [ihf]
            funext j
            by_cases hij : j = i
            · subst hij
              simp [hdist']
            · simp [List.mem_cons, hij]
          · rw [ihc, List.filter_cons]
            simp [hdist']
        · rw [if_neg hdist]
          have halive : g.alive i = true :=
            alive_of_fighter_not_dead g i (by rw [hfi]; rfl) hdead
          have hdist' : distanceManhattan (g.posOf i) p ≤ rad := by omega
          have hposOf : ({ g with fighter := Function.update g.fighter i (some { fi with HP := fi.HP - dmg }) } : Game).posOf = g.posOf := rfl
          obtain ⟨ihf, ihc⟩ :=
            ih { g with fighter := Function.update g.fighter i (some { fi with HP := fi.HP - dmg }) } hnd'
          refine ⟨?_, ?_⟩
          · rw [ihf]
            funext j
            by_cases hij : j = i
            · subst hij
              rw [if_neg (fun h => hi h.1),
                if_pos ⟨List.mem_cons_self j rest, halive, hdist'⟩, hfi]
              show Function.update g.fighter j (some { fi with HP := fi.HP - dmg }) j = _
              rw [Function.update_same]
              rfl
            · rw [hposOf, alive_update_ne g i _ j hij]
              have hval : ({ g with fighter := Function.update g.fighter i (some { fi with HP := fi.HP - dmg }) } : Game).fighter j = g.fighter j := Function.update_noteq hij _ _
              rw [hval]
              simp [List.mem_cons, hij]
          · have hcong : List.filter
                (fun x => Game.alive { g with fighter := Function.update g.fighter i (some { fi with HP := fi.HP - dmg }) } x && decide (distanceManhattan (Game.posOf { g with fighter := Function.update g.fighter i (some { fi with HP := fi.HP - dmg }) } x) p ≤ rad)) rest =
                List.filter (fun x => g.alive x && decide (distanceManhattan (g.posOf x) p ≤ rad)) rest := by
              refine List.filter_congr ?_
              intro x hx
              have hxi : x ≠ i := fun h => hi (h ▸ hx)
              rw [hposOf, alive_update_ne g i _ x hxi]
            have hpi : (g.alive i && decide (distanceManhattan (g.posOf i) p ≤ rad)) = true := by
              rw [halive]
              simp [hdist']
            rw [ihc, hcong, List.filter_cons, if_pos hpi, List.length_cons]
theorem fireballLoop_no_qual (dmg rad : Int) (p : Point) :
    ∀ (l : List Int) (g : Game),
      (∀ i ∈ l, ¬(g.alive i = true ∧ distanceManhattan (g.posOf i) p ≤ rad)) →
      Game.fireballLoop dmg rad p g l = (g, 0) := by
  intro l
  induction l with
  | nil => intro g _; rfl
  | cons i rest ih =>
    intro g hno
    rw [Game.fireballLoop]
    cases hfi : g.fighter i with
    | none => exact ih g (fun j hj => hno j (List.mem_cons_of_mem _ hj))
    | some fi =>
      dsimp only
      by_cases hdead : g.dead i = true
      · rw [if_pos hdead]
        exact ih g (fun j hj => hno j (List.mem_cons_of_mem _ hj))
      · rw [if_neg hdead]
        have halive := alive_of_fighter_not_dead g i (by rw [hfi]; rfl) hdead
        have hd : distanceManhattan (g.posOf i) p > rad := by
          by_contra hle
          push_neg at hle
          exact hno i (List.mem_cons_self i rest) ⟨halive, hle⟩
        rw [if_pos hd]
        exact ih g (fun j hj => hno j (List.mem_cons_of_mem _ hj))

/-- C6: a fireball aimed at a target point fails when the point is not
visible (changing nothing); on success it subtracts its damage from the
HP of every living fighter-bearing entity within its Manhattan radius of
the point — the actor included, since nothing excludes it — and leaves
every other fighter untouched; and when no living fighter is within the
radius it fails with "no targets in the radius", changing no HP. -/
theorem fireball_area_damage (g : Game) (dmg rad : Int) (a : ItemAction) (p : Point)
    (htarg : a.target = some p) (hnd : g.ids.Nodup) :
    (g.inFOV p = false →
      g.fireballActivate dmg rad a = (g, some "You cannot target what you cannot see.")) ∧
    (g.inFOV p = true →
      (∃ j ∈ g.ids, g.alive j = true ∧ distanceManhattan (g.posOf j) p ≤ rad) →
      (g.fireballActivate dmg rad a).2 = none ∧
      (g.fireballActivate dmg rad a).1.fighter = fun j =>
        if j ∈ g.ids ∧ g.alive j = true ∧ distanceManhattan (g.posOf j) p ≤ rad
        then (g.fighter j).map (fun fj => { fj with HP := fj.HP - dmg })
        else g.fighter j) ∧
    (g.inFOV p = true →
      (¬ ∃ j ∈ g.ids, g.alive j = true ∧ distanceManhattan (g.posOf j) p ≤ rad) →
      g.fireballActivate dmg rad a = (g, some "There are no targets in the radius.")) := by
  rw [Game.fireballActivate, htarg]
  dsimp only
  refine ⟨?_, ?_, ?_⟩
  · intro hfov
    rw [if_pos (by simp [hfov])]
  · intro hfov hex
    rw [if_neg (by simp [hfov])]
    obtain ⟨j0, hj0, hq1, hq2⟩ := hex
    have hmemf : j0 ∈ g.ids.filter
        (fun j => g.alive j && decide (distanceManhattan (g.posOf j) p ≤ rad)) :=
      List.mem_filter.mpr ⟨hj0, by simp [hq1, hq2]⟩
    have hcount := (fireballLoop_char dmg rad p g.ids g hnd).2
    have hpos : 0 < (Game.fireballLoop dmg rad p g g.ids).2 := by
      rw [hcount]
      exact List.length_pos.mpr (List.ne_nil_of_mem hmemf)
    rw [if_neg (by omega)]
    exact ⟨rfl, (fireballLoop_char dmg rad p g.ids g hnd).1⟩
  · intro hfov hnex
    rw [if_neg (by simp [hfov])]
    have hzero : Game.fireballLoop dmg rad p g g.ids = (g, 0) := by
      refine fireballLoop_no_qual dmg rad p g.ids g ?_
      intro i hi hq
      exact hnex ⟨i, hi, hq.1, hq.2⟩
    rw [hzero]
    rfl

/-- Witness for C6 at a concrete input — the spec scenario: a fireball of
damage 12 and radius 3 at a visible point succeeds, damaging exactly the
living fighters within distance 3 of the point (the orc at distance 2)
and leaving the others (troll and player at distance 4) unchanged. -/
theorem fireball_area_damage_witness :
    (fireGame.fireballActivate 12 3 ⟨0, some ⟨4, 2⟩⟩).2 = none ∧
    (fireGame.fireballActivate 12 3 ⟨0, some ⟨4, 2⟩⟩).1.fighter = fun j =>
      if j ∈ fireGame.ids ∧ fireGame.alive j = true ∧
          distanceManhattan (fireGame.posOf j) ⟨4, 2⟩ ≤ 3
      then (fireGame.fighter j).map (fun fj => { fj with HP := fj.HP - 12 })
      else fireGame.fighter j :=
  (fireball_area_damage fireGame 12 3 ⟨0, some ⟨4, 2⟩⟩ ⟨4, 2⟩ rfl (by decide)).2.1
    (by decide) (by decide)
end RLTuto
